import Mathlib

/-!
Shallow embedding of the detection/scoring/extraction engine of the
cexte browser extension (src/popup/popup.js, src/content/content.js,
src/background/background.js), together with proofs about it.

Modelling conventions:
* JavaScript strings are Lean `String`s; most text processing is done on
  the underlying `List Char`.
* A DOM document is modelled as a `DocumentSnapshot`: the page url and
  title, the list of heading texts, an association list from CSS
  selector to the `innerText` of the first matching element (absent
  selector means `querySelector` returns `null`), and the body text.
  `innerText` and `textContent` of an element are modelled as the same
  string.
* `String.prototype.toLowerCase` is modelled by mapping `Char.toLower`
  (adequate for the ASCII vocabularies used by the engine).
* JavaScript `\s` is modelled by `Char.isWhitespace`.
* All scores are natural numbers (every contribution in the source is a
  non-negative integer), so `Math.round` on a score is the identity.
-/

/-- JavaScript's `trim()`: drop leading and trailing whitespace. -/
def trimWS (l : List Char) : List Char :=
  ((l.dropWhile Char.isWhitespace).reverse.dropWhile Char.isWhitespace).reverse

/-- JavaScript's `replace(/\s+/g, ' ')`: collapse every maximal whitespace
run into a single space. -/
def collapseWS : List Char → List Char
  | [] => []
  | [c] => if c.isWhitespace then [' '] else [c]
  | c :: d :: rest =>
    if c.isWhitespace && d.isWhitespace then collapseWS (d :: rest)
    else (if c.isWhitespace then ' ' else c) :: collapseWS (d :: rest)

/-- The cleaning step `replace(/\s+/g, ' ').trim()` used by both the popup
and the content script. -/
def normWS (l : List Char) : List Char := trimWS (collapseWS l)

/-- String-level wrapper of `normWS`. -/
def normalizeText (s : String) : String := ⟨normWS s.data⟩

/-- Lower-case a string character by character (`toLowerCase` on the ASCII
vocabularies in use). -/
def lowerStr (s : String) : String := ⟨s.data.map Char.toLower⟩

/-- Does `pat` occur at the start of `l`? (`List.isPrefixOf`, spelled out so
that all matching used by the engine is by one set of definitions). -/
def hasPrefixL : List Char → List Char → Bool
  | [], _ => true
  | _ :: _, [] => false
  | a :: as, b :: bs => a == b && hasPrefixL as bs

/-- JavaScript's `String.prototype.includes`: does `pat` occur anywhere in
`l`? -/
def hasSubL (pat : List Char) : List Char → Bool
  | [] => pat.isEmpty
  | b :: bs => hasPrefixL pat (b :: bs) || hasSubL pat bs

/-- JavaScript's `replace(/\s+/g, rep)` for a constant replacement `rep`:
every maximal whitespace run is replaced by `rep`. -/
def replaceWSRuns (rep : List Char) : List Char → List Char
  | [] => []
  | [c] => if c.isWhitespace then rep else [c]
  | c :: d :: rest =>
    if c.isWhitespace && d.isWhitespace then replaceWSRuns rep (d :: rest)
    else if c.isWhitespace then rep ++ replaceWSRuns rep (d :: rest)
    else c :: replaceWSRuns rep (d :: rest)

/-- Worker for `countOcc`: `skip` counts characters of the current match
still to be consumed before matching is attempted again. -/
def countOccGo (pat : List Char) : Nat → List Char → Nat
  | _, [] => 0
  | skip + 1, _ :: rest => countOccGo pat skip rest
  | 0, c :: rest =>
    if hasPrefixL pat (c :: rest) then 1 + countOccGo pat (pat.length - 1) rest
    else countOccGo pat 0 rest

/-- Number of matches of a global regex made of a single literal `pat`
(`text.match(/pat/g).length`): non-overlapping left-to-right occurrences,
each match consuming its own length. Case-insensitive matching is obtained
by lower-casing both arguments. -/
def countOcc (pat : List Char) (l : List Char) : Nat := countOccGo pat 0 l

/-- Worker for `countAlt`, with the same skip-counter scheme as
`countOccGo`. -/
def countAltGo (ps : List (List Char)) : Nat → List Char → Nat
  | _, [] => 0
  | skip + 1, _ :: rest => countAltGo ps skip rest
  | 0, c :: rest =>
    match ps.find? (fun p => hasPrefixL p (c :: rest)) with
    | some p => 1 + countAltGo ps (p.length - 1) rest
    | none => countAltGo ps 0 rest

/-- Number of matches of a global regex that is an alternation of literals
(`text.match(/p1|p2|.../g).length`): at each position the alternatives are
tried in order, and a match consumes its length. -/
def countAlt (ps : List (List Char)) (l : List Char) : Nat := countAltGo ps 0 l

/-- Worker for `countPat`, with the same skip-counter scheme as
`countOccGo`. -/
def countPatGo (m : List Char → Option Nat) : Nat → List Char → Nat
  | _, [] => 0
  | skip + 1, _ :: rest => countPatGo m skip rest
  | 0, c :: rest =>
    match m (c :: rest) with
    | some k => 1 + countPatGo m (k - 1) rest
    | none => countPatGo m 0 rest

/-- Number of matches of a global regex given by a matcher `m` that, at a
given suffix, either fails or succeeds consuming a positive number of
characters. -/
def countPat (m : List Char → Option Nat) (l : List Char) : Nat := countPatGo m 0 l

/-- Matcher for `/\d+\.\s+[A-Z]/` at the start of `l`: a digit run, a
literal dot, a whitespace run, then an ASCII capital letter. Returns the
number of characters consumed. -/
def matchNumSec (l : List Char) : Option Nat :=
  let ds := l.takeWhile Char.isDigit
  if ds.isEmpty then none else
  match l.drop ds.length with
  | '.' :: rest2 =>
    let ws := rest2.takeWhile Char.isWhitespace
    if ws.isEmpty then none else
    match rest2.drop ws.length with
    | c :: _ => if 'A' ≤ c && c ≤ 'Z' then some (ds.length + 1 + ws.length + 1) else none
    | [] => none
  | _ => none

/-- Matcher for `/kw\s+\d+/` at the start of `l` (`kw` a literal): the
keyword, a whitespace run, then a digit run. Returns the number of
characters consumed. -/
def matchKwNum (kw : List Char) (l : List Char) : Option Nat :=
  if hasPrefixL kw l then
    let rest := l.drop kw.length
    let ws := rest.takeWhile Char.isWhitespace
    if ws.isEmpty then none else
    let ds := (rest.drop ws.length).takeWhile Char.isDigit
    if ds.isEmpty then none else some (kw.length + ws.length + ds.length)
  else none

/-- JavaScript's `split(/\s+/)`, piece accumulator `acc` reversed: a
maximal whitespace run is one separator, and a separator that ends the
string contributes a final empty piece, as JavaScript `split` does. -/
def splitWSGo (acc : List Char) : List Char → List (List Char)
  | [] => [acc.reverse]
  | [c] => if c.isWhitespace then [acc.reverse, []] else [(c :: acc).reverse]
  | c :: d :: rest =>
    if c.isWhitespace then
      if d.isWhitespace then splitWSGo acc (d :: rest)
      else acc.reverse :: splitWSGo [] (d :: rest)
    else splitWSGo (c :: acc) (d :: rest)

/-- JavaScript's `str.split(/\s+/)` on the underlying character list; in
particular `splitWS [] = [[]]`, matching `"".split(/\s+/) = [""]`. -/
def splitWS (l : List Char) : List (List Char) := splitWSGo [] l

/-- A document snapshot: everything the engine reads from the page. -/
structure DocumentSnapshot where
  url : String
  title : String
  headings : List String
  containers : List (String × String)
  bodyText : String
deriving DecidableEq

/-- `document.querySelector(sel)?.innerText`: the text of the first element
matching `sel`, if any. -/
def queryText (snap : DocumentSnapshot) (sel : String) : Option String :=
  (snap.containers.find? (fun p => p.1 == sel)).map Prod.snd

/-- The container-selection loop shared (with different qualification
conditions and selector lists) by `detectAndExtractTC` and
`extractTCContent`: the loop variable is re-assigned to each
`querySelector` result in turn and the loop breaks at the first qualifying
text, so if no text qualifies the loop ends holding the *last* selector's
result. -/
def selectLoop (q : String → Option String) (ok : String → Bool) : List String → Option String
  | [] => none
  | s :: rest =>
    match q s, rest with
    | r, [] => r
    | some t, _ :: _ => if ok t then some t else selectLoop q ok rest
    | none, _ :: _ => selectLoop q ok rest

namespace Popup

/-- The `tcIndicators` vocabulary of `detectAndExtractTC` (popup.js). -/
def tcIndicators : List String :=
  ["terms of service", "terms of use", "terms and conditions",
   "user agreement", "privacy policy", "legal", "eula",
   "end user license agreement", "service agreement",
   "acceptable use policy", "community guidelines",
   "data policy", "cookie policy", "disclaimer"]

/-- The hyphenated, concatenated and underscored URL variants of an
indicator (popup.js `variations`). -/
def variationsOf (ind : String) : List String :=
  [⟨replaceWSRuns ['-'] ind.data⟩, ⟨replaceWSRuns [] ind.data⟩, ⟨replaceWSRuns ['_'] ind.data⟩]

/-- URL-score contribution of one indicator: 20 points for each of its
variants occurring in the lower-cased URL. -/
def indUrlScore (url : String) (ind : String) : Nat :=
  ((variationsOf ind).map (fun v => if hasSubL v.data (lowerStr url).data then 20 else 0)).sum

/-- `urlScore` of `detectAndExtractTC`. -/
def urlScore (snap : DocumentSnapshot) : Nat :=
  (tcIndicators.map (indUrlScore snap.url)).sum

/-- `titleScore` of `detectAndExtractTC`: 25 points per indicator occurring
in the lower-cased title. -/
def titleScore (snap : DocumentSnapshot) : Nat :=
  (tcIndicators.map (fun ind => if hasSubL ind.data (lowerStr snap.title).data then 25 else 0)).sum

/-- The lower-cased heading texts joined with single spaces. -/
def headingsJoined (snap : DocumentSnapshot) : String :=
  String.intercalate " " (snap.headings.map lowerStr)

/-- `headingScore` of `detectAndExtractTC`: 15 points per indicator
occurring in the joined lower-cased headings. -/
def headingScore (snap : DocumentSnapshot) : Nat :=
  (tcIndicators.map (fun ind => if hasSubL ind.data (headingsJoined snap).data then 15 else 0)).sum

/-- The `contentSelectors` priority list of `detectAndExtractTC`. -/
def contentSelectors : List String :=
  ["main", "[role=\"main\"]", ".content", ".main-content",
   ".terms", ".legal-content", ".policy-content", ".terms-content",
   "article", ".article-content", ".document-content",
   ".policy", ".agreement", ".legal"]

/-- Result of the popup's container-selection loop: the qualification test
is `innerText.trim().length > 500`. -/
def contentElement (snap : DocumentSnapshot) : Option String :=
  selectLoop (queryText snap) (fun t => decide (500 < (trimWS t.data).length)) contentSelectors

/-- `rawText` of `detectAndExtractTC`: text of the selected container,
falling back to the body only when the selection loop ended on `null`. -/
def rawMain (snap : DocumentSnapshot) : List Char :=
  match contentElement snap with
  | some t => t.data
  | none => snap.bodyText.data

/-- `mainContent` of `detectAndExtractTC`: the raw text,
whitespace-collapsed and trimmed. -/
def mainContentOf (snap : DocumentSnapshot) : List Char :=
  normWS (rawMain snap)

/-- The `legalPatterns` vocabulary of `detectAndExtractTC`, each matched as
a case-insensitive global regex worth 3 points per match. -/
def legalPatterns : List String :=
  ["hereby agree", "terms of service", "user agreement",
   "privacy policy", "data collection", "intellectual property",
   "limitation of liability", "governing law", "dispute resolution",
   "termination", "prohibited uses", "account suspension",
   "we collect", "personal information", "third party",
   "cookies", "tracking", "analytics", "marketing",
   "license", "copyright", "trademark", "warranty",
   "indemnify", "binding arbitration", "class action"]

/-- The literal keywords of the case-insensitive structure patterns
`/section\s+\d+/gi`, `/article\s+\d+/gi`, `/clause\s+\d+/gi`. -/
def structKws : List String := ["section", "article", "clause"]

/-- `contentScore` of `detectAndExtractTC`: 3 points per legal-pattern
match plus 2 points per structure-pattern match. The structure pattern
`/\d+\.\s+[A-Z]/g` is case-sensitive and runs on the original-case text;
all other patterns carry the `i` flag, modelled by matching lower-cased
text against the (lower-case) vocabulary. -/
def contentScore (content : List Char) : Nat :=
  let lower := content.map Char.toLower
  (legalPatterns.map (fun p => countOcc p.data lower * 3)).sum
  + countPat matchNumSec content * 2
  + (structKws.map (fun k => countPat (matchKwNum k.data) lower * 2)).sum

/-- The record returned by `detectAndExtractTC`. -/
structure DetectResult where
  isTC : Bool
  confidence : Nat
  text : String
  url : String
  title : String
deriving DecidableEq

/-- The injected popup detector `detectAndExtractTC` (popup.js): sub-scores
for url, title, headings and content are aggregated as
`Math.min(100, urlScore + titleScore + headingScore + Math.min(contentScore, 50))`,
the match decision is `totalScore >= 25`, and the returned text is the
cleaned content truncated to 10,000 characters. (`Math.round` on the
integer-valued total is the identity.) -/
def detectAndExtractTC (snap : DocumentSnapshot) : DetectResult :=
  let content := mainContentOf snap
  let total := min 100 (urlScore snap + titleScore snap + headingScore snap
    + min (contentScore content) 50)
  { isTC := decide (25 ≤ total)
    confidence := total
    text := ⟨content.take 10000⟩
    url := snap.url
    title := snap.title }

end Popup

namespace Content

/-- The `contentSelectors` priority list of `extractTCContent`
(content.js). -/
def contentSelectors : List String :=
  ["main", "[role=\"main\"]", ".terms-content", ".legal-content",
   ".privacy-content", ".policy-content", ".agreement-content",
   "article", ".content", ".main-content", "#content", "#main-content"]

/-- The keywords of the navigation-stripping regex
`/^.*?(terms|privacy|legal|agreement|policy)/i` of `extractTCContent`. -/
def stripKws : List (List Char) :=
  ["terms".data, "privacy".data, "legal".data, "agreement".data, "policy".data]

/-- Does one of the strip keywords occur, case-insensitively, at the start
of `l`? -/
def kwAt (l : List Char) : Bool :=
  stripKws.any (fun kw => hasPrefixL kw (l.map Char.toLower))

/-- Position of the first (case-insensitive) occurrence of a strip keyword
in `l`, if any: the lazy `.*?` of the stripping regex stops at the
earliest position where the alternation matches. -/
def firstKwPos : List Char → Option Nat
  | [] => none
  | c :: rest =>
    if kwAt (c :: rest) then some 0
    else (firstKwPos rest).map (· + 1)

/-- `content.replace(/^.*?(terms|privacy|legal|agreement|policy)/i, '$1')`:
the match is replaced by its own capture, so the characters before the
first keyword occurrence are deleted and the string is unchanged when the
regex does not match. (The `.` of the regex cannot cross line
terminators, but at its call site the argument has already had all
whitespace collapsed to plain spaces.) -/
def kwStrip (l : List Char) : List Char :=
  match firstKwPos l with
  | some k => l.drop k
  | none => l

/-- Result of the content script's container-selection loop: the
qualification test here is `innerText.length > 500`, with no trim. -/
def contentContainer (snap : DocumentSnapshot) : Option String :=
  selectLoop (queryText snap) (fun t => decide (500 < t.data.length)) contentSelectors

/-- Raw text for `extractTCContent`: text of the selected container,
falling back to the body only when the selection loop ended on `null`. -/
def rawContent (snap : DocumentSnapshot) : List Char :=
  match contentContainer snap with
  | some t => t.data
  | none => snap.bodyText.data

/-- `extractTCContent` (content.js): the raw text, whitespace-collapsed,
trimmed, and stripped up to the first legal keyword. -/
def extractTCContent (snap : DocumentSnapshot) : List Char :=
  kwStrip (normWS (rawContent snap))

/-- The weighted indicator patterns of `analyzeTCContent`, each a
case-insensitive global alternation of literals. -/
def indicators : List (List String × Nat) :=
  [(["terms of service", "terms of use"], 15),
   (["user agreement", "service agreement"], 15),
   (["privacy policy", "data collection"], 10),
   (["hereby agree", "you agree"], 10),
   (["intellectual property"], 8),
   (["limitation of liability"], 8),
   (["termination", "suspend", "suspension"], 7),
   (["governing law", "jurisdiction"], 7),
   (["dispute resolution", "arbitration"], 7),
   (["prohibited uses", "restrictions"], 6),
   (["account", "registration"], 5),
   (["payment", "billing", "fees"], 5),
   (["cookies", "tracking"], 4),
   (["third party", "third-party"], 3)]

/-- The raw `score` of `analyzeTCContent`: match count times weight, summed
over the indicator patterns. -/
def rawScore (content : List Char) : Nat :=
  let lower := content.map Char.toLower
  (indicators.map (fun pw => countAlt (pw.1.map String.data) lower * pw.2)).sum

/-- The record returned by `analyzeTCContent`. -/
structure AnalyzeResult where
  isTC : Bool
  confidence : Nat
  content : String
  wordCount : Nat
  keyIndicators : Nat
deriving DecidableEq

/-- `analyzeTCContent` (content.js): the confidence is
`Math.min(100, Math.round((score / 200) * 100))`, i.e. half the raw score
rounded half-up, capped at 100; the decision threshold is 30; the
returned content is truncated to 10,000 characters; `wordCount` is the
length of `content.split(/\s+/)`; `keyIndicators` counts the indicator
patterns with at least one match. -/
def analyzeTCContent (snap : DocumentSnapshot) : AnalyzeResult :=
  let content := extractTCContent snap
  let score := rawScore content
  let confidence := min 100 ((score + 1) / 2)
  { isTC := decide (30 ≤ confidence)
    confidence := confidence
    content := ⟨content.take 10000⟩
    wordCount := (splitWS content).length
    keyIndicators :=
      (indicators.filter
        (fun pw => 0 < countAlt (pw.1.map String.data) (content.map Char.toLower))).length }

end Content

namespace Background

/-- The `selectors` list of `extractTextContent` inside `handleTCAnalysis`
(background.js). -/
def selectors : List String :=
  ["main", "article", ".terms-content", ".policy-content",
   ".privacy-content", "#terms", "#privacy-policy", ".legal-content",
   "[class*=\"terms\"]", "[class*=\"privacy\"]", "[class*=\"policy\"]"]

/-- The background selection loop assigns `content` only when a selector's
text qualifies (`innerText.trim().length > 500`), so it yields the first
qualifying text or nothing. -/
def findContent (snap : DocumentSnapshot) : List String → Option String
  | [] => none
  | s :: rest =>
    match queryText snap s with
    | some t => if 500 < (trimWS t.data).length then some t else findContent snap rest
    | none => findContent snap rest

/-- `extractTextContent` (background.js): the first qualifying selector
text, else the body text when its trimmed length exceeds 500 (else the
empty string), trimmed and truncated to 50,000 characters. -/
def extractTextContent (snap : DocumentSnapshot) : List Char :=
  let content := match findContent snap selectors with
    | some t => t.data
    | none => []
  let content := if content.isEmpty || decide ((trimWS content).length < 500) then
      (if 500 < (trimWS snap.bodyText.data).length then snap.bodyText.data else content)
    else content
  (trimWS content).take 50000

/-- A cached summary entry `{ summary, timestamp, url }` (background.js
`cacheSummary`). `timestamp` is a millisecond clock reading; the JavaScript
truthiness test on it is modelled as `timestamp ≠ 0`. -/
structure CacheEntry where
  summary : String
  timestamp : Int
  url : String
deriving DecidableEq

/-- `getCachedSummary` (background.js), as a pure function of the current
time and the stored entry for the requested key: a present entry is served
only while `Date.now() - timestamp < 24 * 60 * 60 * 1000`; otherwise
`null` is sent. -/
def getCachedSummary (now : Int) (entry : Option CacheEntry) : Option String :=
  match entry with
  | none => none
  | some e => if now - e.timestamp < 24 * 60 * 60 * 1000 then some e.summary else none

/-- `cleanupOldCache` (background.js), as a pure function of the current
time and the stored items: an item is removed exactly when its key starts
with `summary_`, its timestamp is truthy, and the timestamp is before
`Date.now() - 7 * 24 * 60 * 60 * 1000`. -/
def cleanupOldCache (now : Int) (items : List (String × CacheEntry)) : List (String × CacheEntry) :=
  items.filter (fun kv =>
    !(hasPrefixL "summary_".data kv.1.data && kv.2.timestamp != 0
      && decide (kv.2.timestamp < now - 7 * 24 * 60 * 60 * 1000)))

/-- The popup's own cache read (popup.js, `DOMContentLoaded` handler): the
stored value for the key is displayed whenever present, with no validity
check of any kind. -/
def popupCachedRead (entry : Option CacheEntry) : Option CacheEntry := entry

end Background

/-! Properties of whitespace normalization. -/

/-- Every whitespace character of `l` is a plain space. -/
def AllWsSp (l : List Char) : Prop := ∀ c ∈ l, c.isWhitespace = true → c = ' '

/-- No two adjacent characters of `l` are both whitespace. -/
def NoAdj (l : List Char) : Prop :=
  l.Chain' (fun a b => ¬(a.isWhitespace = true ∧ b.isWhitespace = true))

/-- The first character of `l`, if any, is not whitespace. -/
def HeadNotWs (l : List Char) : Prop := ∀ c ∈ l.head?, c.isWhitespace = false

/-- The last character of `l`, if any, is not whitespace. -/
def LastNotWs (l : List Char) : Prop := ∀ c ∈ l.getLast?, c.isWhitespace = false

theorem allWsSp_of_subset {l₁ l₂ : List Char} (h : l₁ ⊆ l₂) (h₂ : AllWsSp l₂) : AllWsSp l₁ :=
  fun c hc hw => h₂ c (h hc) hw

theorem collapse_allWsSp : ∀ l, AllWsSp (collapseWS l)
  | [] => by simp [collapseWS, AllWsSp]
  | [c] => by
    cases h : c.isWhitespace with
    | false => intro x hx hw; simp [collapseWS, h] at hx; simp_all
    | true => intro x hx hw; simp [collapseWS, h] at hx; exact hx
  | c :: d :: rest => by
    have ih := collapse_allWsSp (d :: rest)
    cases hc : c.isWhitespace <;> cases hd : d.isWhitespace <;>
      simp only [collapseWS, hc, hd, Bool.and_self, Bool.and_false, Bool.false_and,
        Bool.true_and, if_true, if_false] <;>
      try exact ih
    all_goals
      intro x hx hw
      rcases List.mem_cons.mp hx with h | h
      · subst h; simp_all
      · exact ih x h hw

theorem collapse_cons_head {d : Char} (rest : List Char) (hd : d.isWhitespace = false) :
    (collapseWS (d :: rest)).head? = some d := by
  cases rest with
  | nil => simp [collapseWS, hd]
  | cons e r => simp [collapseWS, hd]

theorem collapse_noAdj : ∀ l, NoAdj (collapseWS l)
  | [] => by simp [collapseWS, NoAdj]
  | [c] => by cases h : c.isWhitespace <;> simp [collapseWS, h, NoAdj]
  | c :: d :: rest => by
    have ih := collapse_noAdj (d :: rest)
    cases hc : c.isWhitespace <;> cases hd : d.isWhitespace
    · rw [show collapseWS (c :: d :: rest) = c :: collapseWS (d :: rest) by
        simp [collapseWS, hc, hd]]
      exact List.chain'_cons'.mpr ⟨fun y _ => by simp [hc], ih⟩
    · rw [show collapseWS (c :: d :: rest) = c :: collapseWS (d :: rest) by
        simp [collapseWS, hc, hd]]
      exact List.chain'_cons'.mpr ⟨fun y _ => by simp [hc], ih⟩
    · rw [show collapseWS (c :: d :: rest) = ' ' :: collapseWS (d :: rest) by
        simp [collapseWS, hc, hd]]
      refine List.chain'_cons'.mpr ⟨?_, ih⟩
      intro y hy
      rw [collapse_cons_head rest hd] at hy
      simp at hy
      subst hy
      simp [hd]
    · rw [show collapseWS (c :: d :: rest) = collapseWS (d :: rest) by
        simp [collapseWS, hc, hd]]
      exact ih

theorem collapse_fixed : ∀ l, AllWsSp l → NoAdj l → collapseWS l = l
  | [], _, _ => rfl
  | [c], h, _ => by
    cases hc : c.isWhitespace with
    | false => simp [collapseWS, hc]
    | true =>
      have hsp : c = ' ' := h c (by simp) hc
      subst hsp
      simp [collapseWS, hc]
  | c :: d :: rest, h, hadj => by
    have hcd : ¬(c.isWhitespace = true ∧ d.isWhitespace = true) :=
      (List.chain'_cons.mp hadj).1
    have htail : collapseWS (d :: rest) = d :: rest :=
      collapse_fixed (d :: rest) (fun x hx => h x (List.mem_cons_of_mem c hx))
        (List.chain'_cons.mp hadj).2
    cases hc : c.isWhitespace with
    | false => simp [collapseWS, hc, htail]
    | true =>
      have hd : d.isWhitespace = false := by
        cases h' : d.isWhitespace with
        | false => rfl
        | true => exact absurd ⟨hc, h'⟩ hcd
      have hsp : c = ' ' := h c (by simp) hc
      subst hsp
      simp [collapseWS, hc, hd, htail]

theorem dropWhile_head_false (p : Char → Bool) (l : List Char) :
    ∀ c ∈ (l.dropWhile p).head?, p c = false := by
  intro c hc
  rw [Option.mem_def] at hc
  have h := List.head?_dropWhile_not p l
  rw [hc] at h
  exact h

theorem dropWhile_eq_self_of_head {p : Char → Bool} {l : List Char}
    (h : ∀ c ∈ l.head?, p c = false) : l.dropWhile p = l := by
  cases l with
  | nil => rfl
  | cons c cs =>
    have := h c (by simp)
    simp [List.dropWhile_cons, this]

theorem trim_isPrefix_dropWhile (l : List Char) :
    trimWS l <+: l.dropWhile Char.isWhitespace := by
  unfold trimWS
  have hsuf : ((l.dropWhile Char.isWhitespace).reverse.dropWhile Char.isWhitespace)
      <:+ (l.dropWhile Char.isWhitespace).reverse := List.dropWhile_suffix _
  have := List.reverse_prefix.mpr hsuf
  simpa using this

theorem trim_mid (l : List Char) : trimWS l <:+: l := by
  obtain ⟨t, ht⟩ := trim_isPrefix_dropWhile l
  have hsuf : l.dropWhile Char.isWhitespace <:+ l := List.dropWhile_suffix _
  obtain ⟨s, hs⟩ := hsuf
  exact ⟨s, t, by rw [List.append_assoc, ht]; exact hs⟩

theorem subset_of_mid {l₁ l₂ : List Char} (h : l₁ <:+: l₂) : l₁ ⊆ l₂ := by
  obtain ⟨s, t, rfl⟩ := h
  intro x hx
  exact List.mem_append.mpr (Or.inl (List.mem_append.mpr (Or.inr hx)))

theorem trim_head (l : List Char) : HeadNotWs (trimWS l) := by
  intro c hc
  rw [Option.mem_def] at hc
  rcases trim_isPrefix_dropWhile l with ⟨t, ht⟩
  have hd : (l.dropWhile Char.isWhitespace).head? = some c := by
    rw [← ht]
    cases htw : trimWS l with
    | nil => rw [htw] at hc; simp at hc
    | cons x xs =>
      rw [htw] at hc
      simp at hc
      simp [hc]
  exact dropWhile_head_false Char.isWhitespace l c hd

theorem trim_last (l : List Char) : LastNotWs (trimWS l) := by
  intro c hc
  unfold trimWS at hc
  rw [List.getLast?_reverse] at hc
  exact dropWhile_head_false Char.isWhitespace _ c hc

theorem trim_fixed {l : List Char} (h1 : HeadNotWs l) (h2 : LastNotWs l) : trimWS l = l := by
  unfold trimWS
  rw [dropWhile_eq_self_of_head h1]
  have : l.reverse.dropWhile Char.isWhitespace = l.reverse := by
    apply dropWhile_eq_self_of_head
    intro c hc
    rw [List.head?_reverse] at hc
    exact h2 c hc
  rw [this, List.reverse_reverse]

theorem norm_allWsSp (l : List Char) : AllWsSp (normWS l) :=
  allWsSp_of_subset (subset_of_mid (trim_mid (collapseWS l))) (collapse_allWsSp l)

theorem norm_noAdj (l : List Char) : NoAdj (normWS l) :=
  List.Chain'.infix (collapse_noAdj l) (trim_mid (collapseWS l))

theorem norm_head (l : List Char) : HeadNotWs (normWS l) := trim_head _

theorem norm_last (l : List Char) : LastNotWs (normWS l) := trim_last _

theorem norm_fixed {l : List Char} (h1 : AllWsSp l) (h2 : NoAdj l)
    (h3 : HeadNotWs l) (h4 : LastNotWs l) : normWS l = l := by
  unfold normWS
  rw [collapse_fixed l h1 h2, trim_fixed h3 h4]

theorem norm_idem (l : List Char) : normWS (normWS l) = normWS l :=
  norm_fixed (norm_allWsSp l) (norm_noAdj l) (norm_head l) (norm_last l)

/-! Properties of the keyword-stripping step of `extractTCContent`. -/

theorem ws_toLower {c : Char} (h : c.isWhitespace = true) : c.toLower = c := by
  simp [Char.isWhitespace] at h
  rcases h with ((rfl | rfl) | rfl) | rfl <;> decide

theorem kwAt_head {l : List Char} (h : Content.kwAt l = true) :
    ∃ c cs, l = c :: cs ∧ c.isWhitespace = false := by
  simp only [Content.kwAt, List.any_eq_true] at h
  obtain ⟨kw, hkw, hpre⟩ := h
  have hkwhead : ∃ a as, kw = a :: as ∧ a.isWhitespace = false := by
    simp only [Content.stripKws, List.mem_cons, List.not_mem_nil, or_false] at hkw
    rcases hkw with rfl | rfl | rfl | rfl | rfl <;> exact ⟨_, _, rfl, by decide⟩
  obtain ⟨a, as, rfl, hans⟩ := hkwhead
  cases l with
  | nil => simp [hasPrefixL] at hpre
  | cons c cs =>
    refine ⟨c, cs, rfl, ?_⟩
    rw [List.map_cons] at hpre
    simp only [hasPrefixL, Bool.and_eq_true, beq_iff_eq] at hpre
    have hac : a = c.toLower := hpre.1
    cases hw : c.isWhitespace with
    | false => rfl
    | true =>
      rw [ws_toLower hw] at hac
      subst hac
      simp [hw] at hans

theorem kwAt_nil : Content.kwAt [] = false := rfl

theorem firstKwPos_none_all : ∀ {l : List Char}, Content.firstKwPos l = none →
    ∀ j, Content.kwAt (l.drop j) = false
  | [], _, j => by simp [kwAt_nil]
  | c :: rest, h, j => by
    rw [Content.firstKwPos] at h
    by_cases hat : Content.kwAt (c :: rest) = true
    · simp [hat] at h
    · have hat' : Content.kwAt (c :: rest) = false := by
        cases hcc : Content.kwAt (c :: rest)
        · rfl
        · exact absurd hcc hat
      rw [if_neg (by simp [hat'])] at h
      have hrest : Content.firstKwPos rest = none := by
        cases hr : Content.firstKwPos rest
        · rfl
        · rw [hr] at h; simp at h
      cases j with
      | zero => simpa using hat'
      | succ j => rw [List.drop_succ_cons]; exact firstKwPos_none_all hrest j

theorem firstKwPos_some_spec : ∀ {l : List Char} {k : Nat},
    Content.firstKwPos l = some k →
    Content.kwAt (l.drop k) = true ∧ ∀ j, j < k → Content.kwAt (l.drop j) = false
  | [], k, h => by simp [Content.firstKwPos] at h
  | c :: rest, k, h => by
    rw [Content.firstKwPos] at h
    by_cases hat : Content.kwAt (c :: rest) = true
    · rw [if_pos hat] at h
      have : k = 0 := by simpa using h.symm
      subst this
      exact ⟨by simpa using hat, fun j hj => absurd hj (Nat.not_lt_zero j)⟩
    · have hat' : Content.kwAt (c :: rest) = false := by
        cases hcc : Content.kwAt (c :: rest)
        · rfl
        · exact absurd hcc hat
      rw [if_neg (by simp [hat'])] at h
      obtain ⟨k', hk', rfl⟩ := Option.map_eq_some'.mp h
      obtain ⟨h1, h2⟩ := firstKwPos_some_spec hk'
      refine ⟨by simpa [List.drop_succ_cons] using h1, fun j hj => ?_⟩
      cases j with
      | zero => simpa using hat'
      | succ j => rw [List.drop_succ_cons]; exact h2 j (Nat.lt_of_succ_lt_succ hj)

theorem firstKwPos_none_of_all : ∀ {l : List Char},
    (∀ j, Content.kwAt (l.drop j) = false) → Content.firstKwPos l = none
  | [], _ => rfl
  | c :: rest, h => by
    rw [Content.firstKwPos]
    have h0 : Content.kwAt (c :: rest) = false := by simpa using h 0
    rw [if_neg (by simp [h0])]
    rw [firstKwPos_none_of_all (fun j => by simpa [List.drop_succ_cons] using h (j + 1))]
    rfl

theorem drop_lastNotWs {l : List Char} (h : LastNotWs l) (k : Nat) :
    LastNotWs (l.drop k) := by
  intro c hc
  rw [Option.mem_def] at hc
  have hne : l.drop k ≠ [] := by intro he; rw [he] at hc; simp at hc
  have hle : l.getLast? = (l.drop k).getLast? := by
    conv_lhs => rw [← List.take_append_drop k l]
    exact List.getLast?_append_of_ne_nil _ hne
  exact h c (by rw [Option.mem_def, hle, hc])

theorem kwStrip_eq_of_none {l : List Char} (hk : Content.firstKwPos l = none) :
    Content.kwStrip l = l := by
  unfold Content.kwStrip
  rw [hk]

theorem kwStrip_eq_of_some {l : List Char} {k : Nat}
    (hk : Content.firstKwPos l = some k) : Content.kwStrip l = l.drop k := by
  unfold Content.kwStrip
  rw [hk]

theorem kwStrip_subset (l : List Char) : Content.kwStrip l ⊆ l := by
  cases hk : Content.firstKwPos l with
  | none => rw [kwStrip_eq_of_none hk]; exact fun x hx => hx
  | some k => rw [kwStrip_eq_of_some hk]; exact List.drop_subset k l

theorem kwStrip_suffix (l : List Char) : Content.kwStrip l <:+ l := by
  cases hk : Content.firstKwPos l with
  | none => rw [kwStrip_eq_of_none hk]
  | some k => rw [kwStrip_eq_of_some hk]; exact List.drop_suffix k l

theorem kwStrip_head {l : List Char} (h1 : HeadNotWs l) : HeadNotWs (Content.kwStrip l) := by
  cases hk : Content.firstKwPos l with
  | none => rw [kwStrip_eq_of_none hk]; exact h1
  | some k =>
    rw [kwStrip_eq_of_some hk]
    obtain ⟨hat, _⟩ := firstKwPos_some_spec hk
    obtain ⟨c, cs, heq, hcw⟩ := kwAt_head hat
    intro x hx
    rw [heq] at hx
    simp at hx
    rw [← hx]
    exact hcw

theorem kwStrip_lastNotWs {l : List Char} (h : LastNotWs l) :
    LastNotWs (Content.kwStrip l) := by
  cases hk : Content.firstKwPos l with
  | none => rw [kwStrip_eq_of_none hk]; exact h
  | some k => rw [kwStrip_eq_of_some hk]; exact drop_lastNotWs h k

/-- The content-script extraction output is already normalized: running the
cleaning step over it again changes nothing. -/
theorem extract_norm_fixed (snap : DocumentSnapshot) :
    normWS (Content.extractTCContent snap) = Content.extractTCContent snap := by
  unfold Content.extractTCContent
  apply norm_fixed
  · exact allWsSp_of_subset (kwStrip_subset _) (norm_allWsSp _)
  · exact List.Chain'.suffix (norm_noAdj _) (kwStrip_suffix _)
  · exact kwStrip_head (norm_head _)
  · exact kwStrip_lastNotWs (norm_last _)

/-! Properties of the `split(/\s+/)` model. -/

theorem lastNotWs_tail {c : Char} {rest : List Char} (h : LastNotWs (c :: rest)) :
    LastNotWs rest := by
  cases rest with
  | nil => intro x hx; simp at hx
  | cons d ds =>
    intro x hx
    apply h x
    rw [Option.mem_def] at hx ⊢
    rw [show c :: d :: ds = [c] ++ d :: ds from rfl,
      List.getLast?_append_of_ne_nil _ (by simp)]
    exact hx

theorem splitWSGo_pieces : ∀ (l acc : List Char),
    (acc = [] → l ≠ [] ∧ HeadNotWs l) → LastNotWs l →
    ∀ p ∈ splitWSGo acc l, p ≠ []
  | [], acc, hacc, _, p, hp => by
    simp only [splitWSGo, List.mem_singleton] at hp
    subst hp
    simp only [ne_eq, List.reverse_eq_nil_iff]
    intro habs
    exact (hacc habs).1 rfl
  | [c], acc, hacc, hlast, p, hp => by
    cases hcw : c.isWhitespace with
    | true =>
      exfalso
      have := hlast c (by simp)
      simp [hcw] at this
    | false =>
      rw [show splitWSGo acc [c] = [(c :: acc).reverse] by simp [splitWSGo, hcw]] at hp
      simp only [List.mem_singleton] at hp
      subst hp
      simp
  | c :: d :: rest, acc, hacc, hlast, p, hp => by
    cases hcw : c.isWhitespace with
    | false =>
      rw [show splitWSGo acc (c :: d :: rest) = splitWSGo (c :: acc) (d :: rest) by
        simp [splitWSGo, hcw]] at hp
      exact splitWSGo_pieces (d :: rest) (c :: acc) (fun h => absurd h (by simp))
        (lastNotWs_tail hlast) p hp
    | true =>
      have haccne : acc ≠ [] := by
        intro he
        obtain ⟨_, hh⟩ := hacc he
        have := hh c (by simp)
        simp [hcw] at this
      cases hdw : d.isWhitespace with
      | true =>
        rw [show splitWSGo acc (c :: d :: rest) = splitWSGo acc (d :: rest) by
          simp [splitWSGo, hcw, hdw]] at hp
        exact splitWSGo_pieces (d :: rest) acc (fun h => absurd h haccne)
          (lastNotWs_tail hlast) p hp
      | false =>
        rw [show splitWSGo acc (c :: d :: rest)
            = acc.reverse :: splitWSGo [] (d :: rest) by
          simp [splitWSGo, hcw, hdw]] at hp
        rcases List.mem_cons.mp hp with rfl | hp'
        · simpa [ne_eq, List.reverse_eq_nil_iff] using haccne
        · refine splitWSGo_pieces (d :: rest) [] (fun _ => ⟨by simp, ?_⟩)
            (lastNotWs_tail hlast) p hp'
          intro x hx
          simp only [List.head?_cons, Option.mem_def, Option.some.injEq] at hx
          exact hx ▸ hdw

theorem splitWS_pieces {l : List Char} (hne : l ≠ []) (hh : HeadNotWs l)
    (hl : LastNotWs l) : ∀ p ∈ splitWS l, p ≠ [] :=
  splitWSGo_pieces l [] (fun _ => ⟨hne, hh⟩) hl

/-- Number of whitespace-delimited tokens of a string: its `split(/\s+/)`
pieces that are nonempty. This is the specification-side notion of word
count; on the empty string it is 0. -/
def tokenCount (l : List Char) : Nat :=
  ((splitWS l).filter (fun p => !p.isEmpty)).length

theorem splitWS_length_eq_tokenCount {l : List Char} (hne : l ≠ [])
    (hh : HeadNotWs l) (hl : LastNotWs l) : (splitWS l).length = tokenCount l := by
  unfold tokenCount
  rw [List.filter_eq_self.mpr]
  intro p hp
  have := splitWS_pieces hne hh hl p hp
  simpa [List.isEmpty_iff] using this

/-! Auxiliary facts for the claim proofs. -/

theorem le_sum_map {α : Type} (f : α → Nat) :
    ∀ (l : List α) (a : α), a ∈ l → f a ≤ (l.map f).sum
  | b :: t, a, h => by
    rcases List.mem_cons.mp h with rfl | h'
    · simp only [List.map_cons, List.sum_cons]
      exact Nat.le_add_right _ _
    · simp only [List.map_cons, List.sum_cons]
      exact Nat.le_trans (le_sum_map f t a h') (Nat.le_add_left _ _)

/-- `n` copies of the four-character block `"aaa "`, appended end to end:
an already-collapsed text made only of single interior spaces plus one
trailing space. -/
def repB : Nat → List Char
  | 0 => []
  | n + 1 => repB n ++ ['a', 'a', 'a', ' ']

theorem repB_allWsSp : ∀ n, AllWsSp (repB n)
  | 0 => by simp [repB, AllWsSp]
  | n + 1 => by
    intro x hx hw
    rcases List.mem_append.mp hx with h | h
    · exact repB_allWsSp n x h hw
    · simp only [List.mem_cons, List.not_mem_nil, or_false] at h
      rcases h with rfl | rfl | rfl | rfl
      · simp at hw
      · simp at hw
      · simp at hw
      · rfl

theorem repB_getLast (n : Nat) : (repB (n + 1)).getLast? = some ' ' := by
  rw [repB, List.getLast?_append_of_ne_nil _ (by simp)]
  rfl

theorem repB_noAdj : ∀ n, NoAdj (repB n)
  | 0 => by simp [repB, NoAdj]
  | n + 1 => by
    rw [show repB (n + 1) = repB n ++ ['a', 'a', 'a', ' '] from rfl]
    refine List.Chain'.append (repB_noAdj n) ?_ ?_
    · rw [List.chain'_cons, List.chain'_cons, List.chain'_cons]
      exact ⟨by decide, by decide, by decide, List.chain'_singleton _⟩
    · intro x hx y hy
      simp only [List.head?_cons, Option.mem_def, Option.some.injEq] at hy
      subst hy
      exact fun h => absurd h.2 (by decide)

theorem repB_head : ∀ n, HeadNotWs (repB n)
  | 0 => by intro x hx; simp [repB] at hx
  | n + 1 => by
    intro x hx
    rw [repB, Option.mem_def, List.head?_append] at hx
    cases hr : (repB n).head? with
    | none =>
      rw [hr] at hx
      simp at hx
      simp [← hx]
    | some c =>
      rw [hr] at hx
      simp at hx
      subst hx
      exact repB_head n c (by rw [Option.mem_def, hr])

theorem repB_length : ∀ n, (repB n).length = 4 * n
  | 0 => rfl
  | n + 1 => by
    rw [repB, List.length_append, repB_length n]
    simp
    omega

theorem trim_repB (n : Nat) : trimWS (repB (n + 1)) = repB n ++ ['a', 'a', 'a'] := by
  unfold trimWS
  rw [dropWhile_eq_self_of_head (repB_head (n + 1))]
  rw [show repB (n + 1) = repB n ++ ['a', 'a', 'a', ' '] from rfl]
  rw [List.reverse_append]
  rw [show (['a', 'a', 'a', ' '] : List Char).reverse = ' ' :: ['a', 'a', 'a'] from rfl]
  rw [List.cons_append, List.dropWhile_cons]
  rw [if_pos (by decide)]
  rw [dropWhile_eq_self_of_head (by
    intro c hc
    simp only [List.cons_append, List.head?_cons, Option.mem_def, Option.some.injEq] at hc
    subst hc
    decide)]
  rw [List.reverse_append, List.reverse_reverse]
  rfl

theorem norm_repB (n : Nat) : normWS (repB (n + 1)) = repB n ++ ['a', 'a', 'a'] := by
  unfold normWS
  rw [collapse_fixed _ (repB_allWsSp _) (repB_noAdj _), trim_repB n]

/-! The claims. -/

/-- Clamping of an integer into the interval from `lo` to `hi`. -/
def clamp (lo hi x : Int) : Int := max lo (min hi x)

/-- A completely empty document snapshot. -/
def emptySnap : DocumentSnapshot := ⟨"", "", [], [], ""⟩

/-- C1: for every document snapshot, the aggregate score computed by
`detectAndExtractTC` equals the clamped sum of the four sub-scores,
`clamp (urlScore + titleScore + headingScore + min contentScore 50) 0 100`,
and therefore lies between 0 and 100. -/
theorem c1_total_is_clamped_sum (snap : DocumentSnapshot) :
    ((Popup.detectAndExtractTC snap).confidence : Int)
      = clamp 0 100 ((Popup.urlScore snap : Int) + (Popup.titleScore snap : Int)
          + (Popup.headingScore snap : Int)
          + min (Popup.contentScore (Popup.mainContentOf snap) : Int) 50)
    ∧ 0 ≤ ((Popup.detectAndExtractTC snap).confidence : Int)
    ∧ (Popup.detectAndExtractTC snap).confidence ≤ 100 := by
  have hconf : (Popup.detectAndExtractTC snap).confidence
      = min 100 (Popup.urlScore snap + Popup.titleScore snap + Popup.headingScore snap
        + min (Popup.contentScore (Popup.mainContentOf snap)) 50) := rfl
  refine ⟨?_, Int.natCast_nonneg _, ?_⟩
  · rw [hconf]
    unfold clamp
    push_cast
    omega
  · rw [hconf]
    exact Nat.min_le_left _ _

/-- C4: the text returned by the popup detector and by the content-script
analyzer never exceeds 10,000 characters, and the text the background
script prepares for the summarization request never exceeds 50,000
characters. -/
theorem c4_length_caps (snap : DocumentSnapshot) :
    (Popup.detectAndExtractTC snap).text.length ≤ 10000
    ∧ (Content.analyzeTCContent snap).content.length ≤ 10000
    ∧ (Background.extractTextContent snap).length ≤ 50000 := by
  refine ⟨?_, ?_, ?_⟩
  · show (String.mk ((Popup.mainContentOf snap).take 10000)).length ≤ 10000
    exact List.length_take_le 10000 (Popup.mainContentOf snap)
  · show (String.mk ((Content.extractTCContent snap).take 10000)).length ≤ 10000
    exact List.length_take_le 10000 (Content.extractTCContent snap)
  · show ((trimWS _).take 50000).length ≤ 50000
    exact List.length_take_le _ _

/-- C5: a completely empty document snapshot yields a total score of 0,
no match, and an empty extracted text. -/
theorem c5_empty_snapshot :
    (Popup.detectAndExtractTC emptySnap).confidence = 0
    ∧ (Popup.detectAndExtractTC emptySnap).isTC = false
    ∧ (Popup.detectAndExtractTC emptySnap).text = "" := by decide

/-- A snapshot on which no selector text qualifies but the last popup
selector `.legal` matches a short element, while the body holds different
text. -/
def lastSelSnap : DocumentSnapshot :=
  ⟨"", "", [], [(".legal", "short legal text")],
   "This body text is what a fallback to the document body would return."⟩

/-- C2: code bug. The selection loops of popup.js and content.js re-use
the loop variable for every `querySelector` result, so when no selector's
text qualifies, the element found by the last selector is adopted instead
of the documented body fallback: on `lastSelSnap` the extracted text is
the short `.legal` element text, not the (normalized) body text. -/
theorem c2_last_selector_shadows_body_fallback :
    (Popup.detectAndExtractTC lastSelSnap).text = "short legal text"
    ∧ (Popup.detectAndExtractTC lastSelSnap).text ≠ normalizeText lastSelSnap.bodyText := by
  have h1 : (Popup.detectAndExtractTC lastSelSnap).text = "short legal text" := by decide
  refine ⟨h1, ?_⟩
  rw [h1]
  decide

/-- A snapshot whose only signal is a title containing one indicator. -/
def titleOnlySnap : DocumentSnapshot := ⟨"", "Privacy Policy", [], [], ""⟩

/-- C3 counterexample: the two detection call sites do not compute the same
total score on the same snapshot: a title-only signal scores 25 in the
popup detector and 0 in the content script. -/
theorem c3_cex_call_sites_disagree :
    (Popup.detectAndExtractTC titleOnlySnap).confidence = 25
    ∧ (Content.analyzeTCContent titleOnlySnap).confidence = 0
    ∧ (Popup.detectAndExtractTC titleOnlySnap).confidence
        ≠ (Content.analyzeTCContent titleOnlySnap).confidence := by decide

/-- C3 (amended): each call site has its own formula. The popup's total is
the clamped sum of its four sub-scores, while the content script's
confidence is `min 100 (round (rawScore / 2))` computed from content
patterns alone; on a snapshot whose only signal is a title indicator the
popup yields 25 and the content script 0. -/
theorem c3_amended_scores_per_call_site (snap : DocumentSnapshot)
    (h1 : Popup.urlScore snap = 0) (h2 : Popup.titleScore snap = 25)
    (h3 : Popup.headingScore snap = 0)
    (h4 : Popup.contentScore (Popup.mainContentOf snap) = 0)
    (h5 : Content.rawScore (Content.extractTCContent snap) = 0) :
    (Popup.detectAndExtractTC snap).confidence = 25
    ∧ (Content.analyzeTCContent snap).confidence = 0 := by
  constructor
  · have hconf : (Popup.detectAndExtractTC snap).confidence
        = min 100 (Popup.urlScore snap + Popup.titleScore snap + Popup.headingScore snap
          + min (Popup.contentScore (Popup.mainContentOf snap)) 50) := rfl
    rw [hconf, h1, h2, h3, h4]
    decide
  · have hconf : (Content.analyzeTCContent snap).confidence
        = min 100 ((Content.rawScore (Content.extractTCContent snap) + 1) / 2) := rfl
    rw [hconf, h5]
    decide

/-- C3 witness: the amended statement instantiated at the title-only
snapshot. -/
theorem c3_amended_witness :
    (Popup.detectAndExtractTC titleOnlySnap).confidence = 25
    ∧ (Content.analyzeTCContent titleOnlySnap).confidence = 0 :=
  c3_amended_scores_per_call_site titleOnlySnap (by decide) (by decide) (by decide)
    (by decide) (by decide)

/-- C6 counterexample: on the empty snapshot the content script's
`wordCount` is 1 (the JavaScript `"".split(/\s+/)` artifact), not the
number of whitespace-delimited tokens of the extracted text, which is 0. -/
theorem c6_cex_word_count_empty :
    (Content.analyzeTCContent emptySnap).wordCount
      ≠ tokenCount (Content.extractTCContent emptySnap) := by decide

/-- C6 (amended): the content-script result's `wordCount` equals the number
of whitespace-delimited tokens of the extracted text when that text is
nonempty, and is 1 (not 0) when the text is empty; the popup result
carries no word count at all. -/
theorem c6_amended_word_count (snap : DocumentSnapshot) :
    (Content.analyzeTCContent snap).wordCount
      = if Content.extractTCContent snap = [] then 1
        else tokenCount (Content.extractTCContent snap) := by
  have hwc : (Content.analyzeTCContent snap).wordCount
      = (splitWS (Content.extractTCContent snap)).length := rfl
  by_cases hc : Content.extractTCContent snap = []
  · rw [if_pos hc, hwc, hc]
    rfl
  · rw [if_neg hc, hwc]
    refine splitWS_length_eq_tokenCount hc ?_ ?_
    · exact kwStrip_head (norm_head _)
    · exact kwStrip_lastNotWs (norm_last _)

/-- Strings with character lists of different contents differ. -/
theorem string_mk_ne {l₁ l₂ : List Char} (h : l₁ ≠ l₂) : (⟨l₁⟩ : String) ≠ ⟨l₂⟩ :=
  fun he => h (congrArg String.data he)

/-- A snapshot whose body is 2501 copies of `"aaa "`: its normalized
content has 10,003 characters and the 10,000-character truncation point
falls right after a space. -/
def bigSnap : DocumentSnapshot := ⟨"", "", [], [], ⟨repB 2501⟩⟩

/-- C7 counterexample: the `text` field returned by the popup detector is
not in general unchanged by renormalization — truncation to 10,000
characters can leave a trailing space, which normalization then trims. -/
theorem c7_cex_truncated_text_not_normal :
    normalizeText ((Popup.detectAndExtractTC bigSnap).text)
      ≠ (Popup.detectAndExtractTC bigSnap).text := by
  have htext : (Popup.detectAndExtractTC bigSnap).text
      = ⟨(Popup.mainContentOf bigSnap).take 10000⟩ := rfl
  have hraw : Popup.rawMain bigSnap = repB 2501 := rfl
  have hmain : Popup.mainContentOf bigSnap = repB 2500 ++ ['a', 'a', 'a'] := by
    unfold Popup.mainContentOf
    rw [hraw]
    exact norm_repB 2500
  have h2500 : (repB 2500).length = 10000 := by rw [repB_length]
  have htake : (Popup.mainContentOf bigSnap).take 10000 = repB 2500 := by
    rw [hmain]
    exact List.take_left' h2500
  rw [htext, htake]
  have hnt : normalizeText ⟨repB 2500⟩ = ⟨normWS (repB 2500)⟩ := rfl
  have hnorm : normWS (repB 2500) = repB 2499 ++ ['a', 'a', 'a'] := by
    rw [show (2500 : Nat) = 2499 + 1 from rfl]
    exact norm_repB 2499
  rw [hnt, hnorm]
  apply string_mk_ne
  intro h
  have hlen := congrArg List.length h
  rw [List.length_append, repB_length, repB_length] at hlen
  norm_num at hlen

/-- C7 (amended): the whitespace normalization shared by both extractors is
idempotent, and the extracted content of either call site is unchanged by
renormalization; the truncated `text` field of the popup result is
unchanged by renormalization whenever the pre-truncation content fits the
10,000-character cap (truncation can otherwise leave a trailing space). -/
theorem c7_amended_normalization_idempotent :
    (∀ l : List Char, normWS (normWS l) = normWS l)
    ∧ (∀ snap : DocumentSnapshot,
        normWS (Popup.mainContentOf snap) = Popup.mainContentOf snap)
    ∧ (∀ snap : DocumentSnapshot,
        normWS (Content.extractTCContent snap) = Content.extractTCContent snap)
    ∧ (∀ snap : DocumentSnapshot, (Popup.mainContentOf snap).length ≤ 10000 →
        normalizeText ((Popup.detectAndExtractTC snap).text)
          = (Popup.detectAndExtractTC snap).text) := by
  refine ⟨norm_idem, fun snap => norm_idem _, extract_norm_fixed, fun snap h => ?_⟩
  have htext : (Popup.detectAndExtractTC snap).text
      = ⟨(Popup.mainContentOf snap).take 10000⟩ := rfl
  rw [htext]
  unfold normalizeText
  rw [List.take_of_length_le h]
  exact congrArg String.mk (norm_idem _)

/-- A small snapshot whose normalized content is far below the truncation
cap. -/
def smallSnap : DocumentSnapshot := ⟨"", "", [], [], "hello  there\n world"⟩

/-- C7 witness: the amended round-trip statement instantiated at a small
snapshot. -/
theorem c7_amended_witness :
    normalizeText ((Popup.detectAndExtractTC smallSnap).text)
      = (Popup.detectAndExtractTC smallSnap).text :=
  c7_amended_normalization_idempotent.2.2.2 smallSnap (by decide)

/-- C8: a cached entry is served by the summary read path only while it is
less than 24 hours old, an older entry yielding `null`; and the cleanup
path removes an entry only when its timestamp is more than 7 days old. -/
theorem c8_cache_ttl_policies (now : Int) (e : Background.CacheEntry) :
    (Background.getCachedSummary now (some e) = some e.summary
      ↔ now - e.timestamp < 24 * 60 * 60 * 1000)
    ∧ (24 * 60 * 60 * 1000 ≤ now - e.timestamp →
        Background.getCachedSummary now (some e) = none)
    ∧ ∀ (items : List (String × Background.CacheEntry))
        (kv : String × Background.CacheEntry), kv ∈ items →
        kv ∉ Background.cleanupOldCache now items →
        kv.2.timestamp < now - 7 * 24 * 60 * 60 * 1000 := by
  refine ⟨?_, ?_, ?_⟩
  · by_cases h : now - e.timestamp < 24 * 60 * 60 * 1000 <;>
      simp [Background.getCachedSummary, h]
  · intro h
    simp [Background.getCachedSummary]
    omega
  · intro items kv hmem hnot
    by_contra hts
    apply hnot
    unfold Background.cleanupOldCache
    rw [List.mem_filter]
    refine ⟨hmem, ?_⟩
    simp
    right
    omega

/-- A cache entry within the 24-hour window at time 86,400,000. -/
def cacheFresh : Background.CacheEntry := ⟨"cached summary", 1000, "https://x.example/terms"⟩

/-- A cache entry far older than 7 days at time 700,000,000,000. -/
def cacheOld : Background.CacheEntry := ⟨"old summary", 5, "https://y.example/legal"⟩

/-- C8 witness: a fresh entry is served, and an entry removed by cleanup is
indeed older than 7 days. -/
theorem c8_witness :
    Background.getCachedSummary 86400000 (some cacheFresh) = some "cached summary"
    ∧ cacheOld.timestamp < 700000000000 - 7 * 24 * 60 * 60 * 1000 :=
  ⟨(c8_cache_ttl_policies 86400000 cacheFresh).1.mpr (by decide),
   (c8_cache_ttl_policies 700000000000 cacheOld).2.2 [("summary_x", cacheOld)]
     ("summary_x", cacheOld) (by decide) (by decide)⟩

/-- C9: the content-script extraction deletes exactly the characters of the
normalized text that precede the first case-insensitive occurrence of one
of the words terms, privacy, legal, agreement, policy, and returns the
text unchanged when no such word occurs anywhere. -/
theorem c9_strip_before_first_keyword (snap : DocumentSnapshot) :
    ((∀ j, Content.kwAt ((normWS (Content.rawContent snap)).drop j) = false) →
      Content.extractTCContent snap = normWS (Content.rawContent snap))
    ∧ ∀ k, Content.kwAt ((normWS (Content.rawContent snap)).drop k) = true →
        (∀ j, j < k → Content.kwAt ((normWS (Content.rawContent snap)).drop j) = false) →
        Content.extractTCContent snap = (normWS (Content.rawContent snap)).drop k := by
  constructor
  · intro h
    unfold Content.extractTCContent
    exact kwStrip_eq_of_none (firstKwPos_none_of_all h)
  · intro k hk hlt
    unfold Content.extractTCContent
    apply kwStrip_eq_of_some
    cases hfp : Content.firstKwPos (normWS (Content.rawContent snap)) with
    | none => exact absurd (firstKwPos_none_all hfp k) (by simp [hk])
    | some k' =>
      obtain ⟨h1, h2⟩ := firstKwPos_some_spec hfp
      have hkk : k' = k := by
        rcases Nat.lt_trichotomy k' k with h | h | h
        · exact absurd h1 (by simp [hlt k' h])
        · exact h
        · exact absurd hk (by simp [h2 k h])
      subst hkk
      rfl

/-- A snapshot whose body text mentions a privacy policy after a preamble. -/
def kwSnap : DocumentSnapshot := ⟨"", "", [], [], "Welcome! Our Privacy Policy applies."⟩

/-- C9 witness: both branches of the stripping statement, at the empty
snapshot (no keyword anywhere) and at a snapshot whose first keyword
occurrence starts at position 13. -/
theorem c9_witness :
    Content.extractTCContent emptySnap = normWS (Content.rawContent emptySnap)
    ∧ Content.extractTCContent kwSnap = (normWS (Content.rawContent kwSnap)).drop 13 :=
  ⟨(c9_strip_before_first_keyword emptySnap).1 (fun j => by
      rw [show normWS (Content.rawContent emptySnap) = [] from rfl, List.drop_nil]
      rfl),
   (c9_strip_before_first_keyword kwSnap).2 13 (by decide) (by decide)⟩

/-- C10: for each whitespace-free indicator (legal, eula, disclaimer) the
three URL variants all equal the indicator itself, so a URL containing the
word earns 60 points from that indicator alone — with zero title, heading
and content signal this alone exceeds the popup's match threshold of 25. -/
theorem c10_single_word_indicator_dominates (w : String)
    (hw : w ∈ (["legal", "eula", "disclaimer"] : List String)) :
    Popup.variationsOf w = [w, w, w]
    ∧ ∀ snap : DocumentSnapshot, hasSubL w.data (lowerStr snap.url).data = true →
        Popup.indUrlScore snap.url w = 60
        ∧ 60 ≤ Popup.urlScore snap
        ∧ (Popup.titleScore snap = 0 → Popup.headingScore snap = 0 →
            Popup.contentScore (Popup.mainContentOf snap) = 0 →
            (Popup.detectAndExtractTC snap).isTC = true
            ∧ 25 < (Popup.detectAndExtractTC snap).confidence) := by
  have hvar : Popup.variationsOf w = [w, w, w] := by
    simp only [List.mem_cons, List.not_mem_nil, or_false] at hw
    rcases hw with rfl | rfl | rfl <;> decide
  refine ⟨hvar, fun snap hsub => ?_⟩
  have hind : Popup.indUrlScore snap.url w = 60 := by
    unfold Popup.indUrlScore
    rw [hvar]
    simp [hsub]
  have hmem : w ∈ Popup.tcIndicators := by
    simp only [List.mem_cons, List.not_mem_nil, or_false] at hw
    rcases hw with rfl | rfl | rfl <;> decide
  have hurl : 60 ≤ Popup.urlScore snap := by
    rw [← hind]
    exact le_sum_map (Popup.indUrlScore snap.url) Popup.tcIndicators w hmem
  refine ⟨hind, hurl, fun ht hh hc => ?_⟩
  simp only [Popup.detectAndExtractTC]
  rw [ht, hh, hc]
  constructor
  · rw [decide_eq_true_eq]
    omega
  · omega

/-- A snapshot whose only signal is the word legal in its URL. -/
def legalSnap : DocumentSnapshot := ⟨"https://example.com/legal", "", [], [], ""⟩

/-- C10 witness: the statement instantiated at the word legal and a
URL-only snapshot. -/
theorem c10_witness :
    Popup.variationsOf "legal" = ["legal", "legal", "legal"]
    ∧ Popup.indUrlScore legalSnap.url "legal" = 60
    ∧ (Popup.detectAndExtractTC legalSnap).isTC = true := by
  have h := c10_single_word_indicator_dominates "legal" (by decide)
  have h2 := h.2 legalSnap (by decide)
  exact ⟨h.1, h2.1, (h2.2.2 (by decide) (by decide) (by decide)).1⟩
